import Mathlib

/-!
Verification of `recap_bot.py`, a chat-channel recap bot that counts messages
posted by the Typeform app inside local-calendar time windows (day, week,
month-to-date), renders the aggregates (totals, daily average, bar chart) and
posts or schedules the rendered report.

The development shallowly embeds the program's pure core:

* the proleptic Gregorian calendar arithmetic that `datetime`/`zoneinfo`
  perform (dates, day-of-epoch counting, month lengths, leap years);
* aware-datetime timestamps: a timezone is modelled as a function from local
  wall-clock datetimes to their UTC offset in seconds, and
  `datetime.timestamp()` as "naive seconds since epoch minus offset";
* `_day_window_local`, `_month_window_local_for`, `_date_label`,
  `_month_label`, `_is_typeform_message`, `_list_messages` (with the Slack
  API modelled as an explicit finite trace of page / rate-limit / error
  responses), `_bar_chart`, `_local_dt_today_at`, `_post_or_schedule` and the
  summarising / posting drivers built from them.

Fractional arithmetic that CPython performs on floats (`round(x, 2)`,
`math.ceil((v / maxv) * 20)`) is embedded exactly over ℕ/ℚ.
-/

namespace RecapBot

/-! ## Calendar arithmetic (proleptic Gregorian, as used by `datetime`) -/

/-- Gregorian leap-year rule. -/
def isLeap (y : Nat) : Bool :=
  y % 4 == 0 && (y % 100 != 0 || y % 400 == 0)

/-- Number of days in month `m` (1-12) of year `y`. -/
def daysInMonth (y m : Nat) : Nat :=
  if m = 2 then (if isLeap y then 29 else 28)
  else if m = 4 ∨ m = 6 ∨ m = 9 ∨ m = 11 then 30
  else 31

/-- Number of days in year `y`. -/
def daysInYear (y : Nat) : Nat :=
  if isLeap y then 366 else 365

/-- Days in the years `1970, …, 1970 + n - 1`. -/
def daysBeforeYearAux : Nat → Nat
  | 0 => 0
  | n + 1 => daysBeforeYearAux n + daysInYear (1970 + n)

/-- Days from 1970-01-01 to the start of year `y` (for `y ≥ 1970`). -/
def daysBeforeYear (y : Nat) : Nat :=
  daysBeforeYearAux (y - 1970)

/-- Days from the start of year `y` to the start of its month `m`. -/
def daysBeforeMonth (y : Nat) : Nat → Nat
  | 0 => 0
  | m + 1 => if m = 0 then 0 else daysBeforeMonth y m + daysInMonth y m

/-- A calendar date, as held by a `datetime` value. -/
structure Date where
  year : Nat
  month : Nat
  day : Nat
deriving DecidableEq, Repr

/-- The date actually denotes a calendar day (and is in the era the
day-counting recursion covers, i.e. not before the epoch year). -/
def Date.valid (d : Date) : Prop :=
  1970 ≤ d.year ∧ 1 ≤ d.month ∧ d.month ≤ 12 ∧ 1 ≤ d.day ∧
    d.day ≤ daysInMonth d.year d.month

instance (d : Date) : Decidable d.valid := by
  unfold Date.valid
  infer_instance

/-- Days elapsed from 1970-01-01 to date `d`. -/
def daysSinceEpoch (d : Date) : Nat :=
  daysBeforeYear d.year + daysBeforeMonth d.year d.month + (d.day - 1)

/-- The calendar day after `d`.  This is what `timedelta(days=1)` produces
when added to a (midnight) `datetime`: `datetime` arithmetic advances the
wall-clock calendar date, carrying into month and year as needed. -/
def nextDate (d : Date) : Date :=
  if d.day < daysInMonth d.year d.month then ⟨d.year, d.month, d.day + 1⟩
  else if d.month < 12 then ⟨d.year, d.month + 1, 1⟩
  else ⟨d.year + 1, 1, 1⟩

/-- The calendar day before `d` (what `- timedelta(days=1)` produces). -/
def prevDate (d : Date) : Date :=
  if 1 < d.day then ⟨d.year, d.month, d.day - 1⟩
  else if 1 < d.month then ⟨d.year, d.month - 1, daysInMonth d.year (d.month - 1)⟩
  else ⟨d.year - 1, 12, 31⟩

/-- `d - timedelta(days=n)`. -/
def subDays (d : Date) : Nat → Date
  | 0 => d
  | n + 1 => prevDate (subDays d n)

/-! ## Local datetimes, timezones and timestamps -/

/-- A local wall-clock datetime (an aware `datetime` minus its timezone). -/
structure LocalDT where
  date : Date
  hour : Nat
  minute : Nat
  second : Nat
deriving DecidableEq, Repr

/-- A timezone: the UTC offset (in seconds) in force at a local wall-clock
datetime.  `zoneinfo` resolves an aware datetime's offset from its local
fields; daylight-saving time makes the offset depend on the datetime. -/
abbrev Tz := LocalDT → Int

/-- Seconds from the epoch to `t` read as if it were UTC. -/
def LocalDT.naiveEpoch (t : LocalDT) : Int :=
  86400 * (daysSinceEpoch t.date : Int) + 3600 * (t.hour : Int) +
    60 * (t.minute : Int) + (t.second : Int)

/-- `datetime.timestamp()` of an aware local datetime: naive epoch seconds
minus the UTC offset in force at that local time. -/
def toTimestamp (tz : Tz) (t : LocalDT) : Int :=
  t.naiveEpoch - tz t

/-- Local midnight of a date (`datetime(y, m, d, 0, 0, 0, tzinfo=TZ)`). -/
def midnight (d : Date) : LocalDT :=
  ⟨d, 0, 0, 0⟩

/-- A well-formed local datetime: valid date and in-range time fields (as any
`datetime` value guarantees). -/
def LocalDT.wf (t : LocalDT) : Prop :=
  t.date.valid ∧ t.hour < 24 ∧ t.minute < 60 ∧ t.second < 60

instance (t : LocalDT) : Decidable t.wf := by
  unfold LocalDT.wf
  infer_instance

/-! ## Window calculator -/

/-- `_day_window_local`: `(oldest_ts, latest_ts, start_dt, end_dt)` for one
local calendar day.  `start` is local midnight of `d`; the end is
`start + timedelta(days=1)`, i.e. local midnight of the next calendar date
(wall-clock calendar arithmetic, not a fixed 86400-second offset). -/
def dayWindowLocal (tz : Tz) (d : Date) : Int × Int × LocalDT × LocalDT :=
  (toTimestamp tz (midnight d), toTimestamp tz (midnight (nextDate d)),
    midnight d, midnight (nextDate d))

/-- The first day of the month after month `m` of year `y`, with the
December → January year rollover made explicit (as in the source's
`if dt_any.month == 12` branch). -/
def nextMonthFirst (y m : Nat) : Date :=
  if m = 12 then ⟨y + 1, 1, 1⟩ else ⟨y, m + 1, 1⟩

/-- `_month_window_local_for`: `(start_ts, end_ts, start_dt)` covering the
calendar month containing `t`. -/
def monthWindowLocalFor (tz : Tz) (t : LocalDT) : Int × Int × LocalDT :=
  (toTimestamp tz (midnight ⟨t.date.year, t.date.month, 1⟩),
    toTimestamp tz (midnight (nextMonthFirst t.date.year t.date.month)),
    midnight ⟨t.date.year, t.date.month, 1⟩)

/-! ## Labels (`_date_label`, `_month_label`, `strftime`) -/

/-- Full weekday names indexed by `daysSinceEpoch % 7` (1970-01-01 was a
Thursday). -/
def weekdayNamesFull : List String :=
  ["Thursday", "Friday", "Saturday", "Sunday", "Monday", "Tuesday", "Wednesday"]

/-- Abbreviated weekday names indexed by `daysSinceEpoch % 7`. -/
def weekdayAbbrs : List String :=
  ["Thu", "Fri", "Sat", "Sun", "Mon", "Tue", "Wed"]

/-- Abbreviated month names (`%b`). -/
def monthAbbrs : List String :=
  ["Jan", "Feb", "Mar", "Apr", "May", "Jun",
   "Jul", "Aug", "Sep", "Oct", "Nov", "Dec"]

/-- Full month names (`%B`). -/
def monthNamesFull : List String :=
  ["January", "February", "March", "April", "May", "June", "July", "August",
   "September", "October", "November", "December"]

/-- `dt.strftime("%A")`. -/
def weekdayName (d : Date) : String :=
  weekdayNamesFull.getD (daysSinceEpoch d % 7) ""

/-- `_date_label`: `dt.strftime("%a %b %-d")`, e.g. `"Sun Sep 14"`. -/
def dateLabel (d : Date) : String :=
  weekdayAbbrs.getD (daysSinceEpoch d % 7) "" ++ " " ++
    monthAbbrs.getD (d.month - 1) "" ++ " " ++ toString d.day

/-- `_month_label`: `dt.strftime("%B")`, e.g. `"September"`. -/
def monthLabel (t : LocalDT) : String :=
  monthNamesFull.getD (t.date.month - 1) ""

/-! ## Raw events and the classifier (`_is_typeform_message`) -/

/-- The `bot_profile` object a Slack message may carry. -/
structure BotProfile where
  appId : Option String
  name : Option String
  username : Option String
deriving DecidableEq, Repr

/-- The fields of a raw Slack message the classifier reads.  `none` models an
absent key (`msg.get(...) is None`). -/
structure Message where
  subtype : Option String
  botProfile : Option BotProfile
  username : Option String
  user : Option String
deriving DecidableEq, Repr

/-- The housekeeping subtypes the classifier ignores. -/
def housekeepingSubtypes : List String :=
  ["channel_join", "channel_leave", "channel_topic", "channel_purpose",
   "channel_name", "message_deleted", "message_changed"]

/-- `subtype in {...}` (an absent subtype is in no set). -/
def isHousekeeping (m : Message) : Bool :=
  match m.subtype with
  | some st => housekeepingSubtypes.contains st
  | none => false

/-- `msg.get("bot_profile") or {}`. -/
def botProfileOrEmpty (m : Message) : BotProfile :=
  m.botProfile.getD ⟨none, none, none⟩

/-- `TYPEFORM_APP_ID and bp.get("app_id") == TYPEFORM_APP_ID`: the configured
identifier must be truthy (set and non-empty) and equal the profile's
`app_id`. -/
def appIdMatch (cfg : Option String) (m : Message) : Bool :=
  match cfg with
  | some a => a != "" && ((botProfileOrEmpty m).appId == some a)
  | none => false

/-- `str.lower()` over the characters of a string. -/
def lowerChars (s : String) : List Char :=
  s.data.map Char.toLower

/-- `pat in l`: does `pat` occur as a contiguous subsequence of `l`? -/
def containsSeq (pat : List Char) (l : List Char) : Bool :=
  match l with
  | [] => pat.isEmpty
  | _ :: t => pat.isPrefixOf l || containsSeq pat t

/-- The three name candidates:
`bp.get("name") or ""`, `bp.get("username") or ""`, `msg.get("username") or ""`. -/
def nameCandidates (m : Message) : List String :=
  [(botProfileOrEmpty m).name.getD "", (botProfileOrEmpty m).username.getD "",
   m.username.getD ""]

/-- `any("typeform" in s for s in name_candidates)` after lowercasing. -/
def hasTypeformName (m : Message) : Bool :=
  (nameCandidates m).any (fun s => containsSeq "typeform".data (lowerChars s))

/-- `msg.get("user")` is truthy. -/
def userTruthy (m : Message) : Bool :=
  match m.user with
  | some u => u != ""
  | none => false

/-- `_is_typeform_message`: housekeeping subtypes are never counted; a
configured matching `app_id` counts; otherwise a lowercased name field
containing `"typeform"` counts; otherwise (human or unclassifiable) not
counted. -/
def isTypeformMessage (cfg : Option String) (m : Message) : Bool :=
  if isHousekeeping m then false
  else if appIdMatch cfg m then true
  else if hasTypeformName m then true
  else if userTruthy m then false
  else false

/-! ## Paginated fetch with rate-limit backoff (`_list_messages`)

The Slack API is modelled as a finite trace of responses, one response
consumed per `conversations_history` call.  The embedding records every
request made (its `oldest`/`latest`/`inclusive`/`cursor` arguments), every
sleep performed, and the messages yielded. -/

/-- One response of the modelled source API. -/
inductive Resp where
  /-- A normal page: messages, `has_more`, `response_metadata.next_cursor`. -/
  | page (msgs : List Message) (hasMore : Bool) (nextCursor : Option String)
  /-- A `SlackApiError` with HTTP status 429 whose `Retry-After` header
  parsed to `retryAfter` (the source default is 1 when absent). -/
  | rate (retryAfter : Nat)
  /-- Any other `SlackApiError`, identified by its status code. -/
  | err (code : Nat)
deriving DecidableEq, Repr

/-- Is the response a rate-limit signal? -/
def Resp.isRate : Resp → Bool
  | .rate _ => true
  | _ => false

/-- The arguments of one `conversations_history` call. -/
structure Req where
  oldest : Int
  latest : Int
  inclusive : Bool
  cursor : Option String
deriving DecidableEq, Repr

/-- The observable interaction of one `_list_messages` run: messages yielded,
requests issued (in order), and `time.sleep` durations (in order). -/
structure Trace where
  msgs : List Message
  calls : List Req
  sleeps : List Nat
deriving DecidableEq, Repr

/-- How a `_list_messages` run ends: normal exhaustion (`has_more` false), a
raised non-429 error, or the model's response trace running out. -/
inductive Outcome where
  | done
  | failed (code : Nat)
  | starved
deriving DecidableEq, Repr

/-- `_list_messages(channel_id, oldest, latest)`: iterate pages with
`inclusive=False` over `[oldest, latest)`; on a 429 sleep
`retry_after + 1` seconds and retry with the *same* cursor; raise any other
error; follow `next_cursor` while `has_more`. -/
def listMessages (o l : Int) : List Resp → Option String → Trace × Outcome
  | [], c => (⟨[], [⟨o, l, false, c⟩], []⟩, .starved)
  | .rate ra :: rest, c =>
    let p := listMessages o l rest c
    (⟨p.1.msgs, ⟨o, l, false, c⟩ :: p.1.calls, (ra + 1) :: p.1.sleeps⟩, p.2)
  | .err code :: _, c => (⟨[], [⟨o, l, false, c⟩], []⟩, .failed code)
  | .page msgs hasMore nextCur :: rest, c =>
    if hasMore then
      let p := listMessages o l rest nextCur
      (⟨msgs ++ p.1.msgs, ⟨o, l, false, c⟩ :: p.1.calls, p.1.sleeps⟩, p.2)
    else (⟨msgs, [⟨o, l, false, c⟩], []⟩, .done)

/-- Membership in the half-open interval `[oldest, latest)` that
`inclusive=False` requests from the source. -/
def memWindow (oldest latest t : Int) : Prop :=
  oldest ≤ t ∧ t < latest

instance (o l t : Int) : Decidable (memWindow o l t) := by
  unfold memWindow
  infer_instance

/-- Why a fetch did not complete. -/
inductive FetchErr where
  /-- A non-429 `SlackApiError` propagated to the caller. -/
  | api (code : Nat)
  /-- The modelled response trace was exhausted mid-run. -/
  | truncated
deriving DecidableEq, Repr

/-- Collect every message of a full `_list_messages` run, or the error it
raises. -/
def runFetch (o l : Int) (resps : List Resp) : Except FetchErr (List Message) :=
  match listMessages o l resps none with
  | (t, .done) => .ok t.msgs
  | (_, .failed code) => .error (.api code)
  | (_, .starved) => .error .truncated

/-- The source, as the summarisers see it: for each requested window
`[oldest, latest)` a fixed trace of API responses. -/
abbrev Source := Int → Int → List Resp

/-! ## Bar chart (`_bar_chart`) -/

/-- The fill character `'█'`. -/
def barFill : Char := '█'

/-- `f"{label:>12}"`: right-align in a field of width 12. -/
def padLeft (s : String) (w : Nat) : String :=
  String.mk (List.replicate (w - s.length) ' ') ++ s

/-- `max(v for _, v in rows) or 1` (the `or 1` guards the all-zero case). -/
def maxvOf (rows : List (String × Nat)) : Nat :=
  if (rows.map Prod.snd).foldl max 0 = 0 then 1 else (rows.map Prod.snd).foldl max 0

/-- `0 if v == 0 else max(1, math.ceil((v / maxv) * 20))`.  The exact value
of `math.ceil((v / maxv) * 20)` is `⌈20·v / maxv⌉`, computed here by natural
ceiling division (see `barN_eq_ceil_formula`). -/
def barN (maxv v : Nat) : Nat :=
  if v = 0 then 0 else max 1 ((20 * v + maxv - 1) / maxv)

/-- The chart body lines: `f"{label:>12} | {'█' * n} {v}"`. -/
def barChartLines (rows : List (String × Nat)) : List String :=
  rows.map (fun p =>
    padLeft p.1 12 ++ " | " ++ String.mk (List.replicate (barN (maxvOf rows) p.2) barFill)
      ++ " " ++ toString p.2)

/-- `_bar_chart`: empty rows yield the empty string, otherwise a fenced
monospace block. -/
def barChart (rows : List (String × Nat)) : String :=
  if rows.isEmpty then ""
  else "```\n" ++ String.intercalate "\n" (barChartLines rows) ++ "\n```"

/-! ## Rollup arithmetic (`post_weekly_typeform` lines 272-274) -/

/-- `rows = [(d["date_label"], d["total"]) for d in week]`. -/
structure DaySummary where
  dateLabel : String
  dow : String
  total : Nat
deriving DecidableEq, Repr

/-- The `(label, count)` rows derived from a week of day summaries. -/
def weekRows (week : List DaySummary) : List (String × Nat) :=
  week.map (fun d => (d.dateLabel, d.total))

/-- `total = sum(v for _, v in rows)`. -/
def rollupTotal (rows : List (String × Nat)) : Nat :=
  (rows.map Prod.snd).sum

/-- Round `num / den` to the nearest integer, ties to even — the rounding
CPython's `round` applies (banker's rounding), in exact arithmetic. -/
def roundHalfEven (num den : Nat) : Nat :=
  let q := num / den
  let r := num % den
  if 2 * r < den then q
  else if den < 2 * r then q + 1
  else if q % 2 = 0 then q else q + 1

/-- `round(total / len, 2)` expressed in hundredths. -/
def round2Cents (total len : Nat) : Nat :=
  roundHalfEven (100 * total) len

/-- The failure `total / len(rows)` raises when `rows` is empty. -/
inductive DivErr where
  | divByZero
deriving DecidableEq, Repr

/-- `avg = round(total / len(rows), 2)` as hundredths; dividing by an empty
row list raises `ZeroDivisionError`. -/
def rollupAvgCents (rows : List (String × Nat)) : Except DivErr Nat :=
  if rows.length = 0 then .error .divByZero
  else .ok (round2Cents (rollupTotal rows) rows.length)

/-! ## Summaries -/

/-- `summarize_typeform_for_day`: fetch the day window, classify, count. -/
def summarizeTypeformForDay (cfg : Option String) (tz : Tz) (src : Source)
    (day : Date) : Except FetchErr DaySummary :=
  let w := dayWindowLocal tz day
  (runFetch w.1 w.2.1 (src w.1 w.2.1)).map (fun msgs =>
    ⟨dateLabel day, weekdayName day, (msgs.filter (isTypeformMessage cfg)).length⟩)

/-- `summarize_typeform_week`: the 7 full local days ending with
`end_day_inclusive`, oldest first (`for i in range(6, -1, -1)`). -/
def summarizeTypeformWeek (cfg : Option String) (tz : Tz) (src : Source)
    (endDay : Date) : Except FetchErr (List DaySummary) :=
  (List.range 7).mapM (fun i => summarizeTypeformForDay cfg tz src (subDays endDay (6 - i)))

/-- The month-to-date summary value. -/
structure MonthSummary where
  month : String
  total : Nat
deriving DecidableEq, Repr

/-- The interaction trace of `summarize_typeform_month_to_now`'s single
fetch: `oldest` is the month start, `latest` is `now` itself (the month-end
timestamp the window helper also returns is discarded). -/
def monthToNowFetch (tz : Tz) (src : Source) (now : LocalDT) : Trace × Outcome :=
  let oldest := (monthWindowLocalFor tz now).1
  let latest := toTimestamp tz now
  listMessages oldest latest (src oldest latest) none

/-- `summarize_typeform_month_to_now`. -/
def summarizeTypeformMonthToNow (cfg : Option String) (tz : Tz) (src : Source)
    (now : LocalDT) : Except FetchErr MonthSummary :=
  let oldest := (monthWindowLocalFor tz now).1
  let latest := toTimestamp tz now
  (runFetch oldest latest (src oldest latest)).map (fun msgs =>
    ⟨monthLabel (monthWindowLocalFor tz now).2.2,
      (msgs.filter (isTypeformMessage cfg)).length⟩)

/-! ## Report assembly and delivery (`post_weekly_typeform`, `_post_or_schedule`) -/

/-- A Slack block: a plain-text header or a mrkdwn section. -/
inductive Block where
  | headerB (text : String)
  | sectionB (text : String)
deriving DecidableEq, Repr

/-- Render an exact hundredths value the way CPython prints the
corresponding two-decimal float (trailing zeros dropped, at least one
decimal digit kept). -/
def centsText (c : Nat) : String :=
  if c % 100 = 0 then toString (c / 100) ++ ".0"
  else if c % 10 = 0 then toString (c / 100) ++ "." ++ toString (c % 100 / 10)
  else toString (c / 100) ++ "." ++ (if c % 100 < 10 then "0" else "") ++ toString (c % 100)

/-- The weekly message blocks: header, totals section, and — only when the
chart text is non-empty — a chart section (`if chart: blocks.append(...)`). -/
def weeklyBlocks (week : List DaySummary) (avgCents : Nat) : List Block :=
  let rows := weekRows week
  let chart := barChart rows
  let base := [Block.headerB "Weekly Recap as of 2pm Friday",
    Block.sectionB ("*Total Typeform messages:* " ++ toString (rollupTotal rows)
      ++ "\n*Daily average:* " ++ centsText avgCents)]
  if chart = "" then base else base ++ [Block.sectionB chart]

/-- A failure of the weekly posting path. -/
inductive RunErr where
  | fetch (e : FetchErr)
  | divByZero
deriving DecidableEq, Repr

/-- `post_weekly_typeform` up to the delivery call: summarize the 7 full days
ending yesterday, roll them up, and build `(text, blocks)`. -/
def postWeeklyTypeform (cfg : Option String) (tz : Tz) (src : Source)
    (now : LocalDT) : Except RunErr (String × List Block) := do
  let yesterday := prevDate now.date
  let week ← (summarizeTypeformWeek cfg tz src yesterday).mapError RunErr.fetch
  let avg ← (rollupAvgCents (weekRows week)).mapError (fun _ => RunErr.divByZero)
  return ("Weekly Typeform recap", weeklyBlocks week avg)

/-- `_local_dt_today_at(hh+":"+mm)`: today's local datetime at `h:m`. -/
def localDtTodayAt (h m : Nat) (now : LocalDT) : LocalDT :=
  ⟨now.date, h, m, 0⟩

/-- `t + timedelta(seconds=n)` on an aware datetime: advance the wall clock,
carrying into the next calendar day if midnight is crossed (for the margins
used here, at most one day). -/
def addSecondsWall (t : LocalDT) (n : Nat) : LocalDT :=
  let tot := 3600 * t.hour + 60 * t.minute + t.second + n
  if tot < 86400 then ⟨t.date, tot / 3600, tot % 3600 / 60, tot % 60⟩
  else ⟨nextDate t.date, (tot - 86400) / 3600, (tot - 86400) % 3600 / 60, (tot - 86400) % 60⟩

/-- The delivery decision `_post_or_schedule` makes. -/
inductive PostAction where
  | scheduled (channel : String) (text : String) (blocks : List Block) (postAt : Int)
  | postNow (channel : String) (text : String) (blocks : List Block)
deriving DecidableEq, Repr

/-- `_post_or_schedule`: when a local `HH:MM` is configured and today's
instant at that time is strictly later than `now + 15s`, schedule for that
instant (`post_at=int(target.timestamp())`); otherwise post immediately. -/
def postOrSchedule (tz : Tz) (chan : String) (text : String) (blocks : List Block)
    (scheduleAtLocal : Option (Nat × Nat)) (now : LocalDT) : PostAction :=
  match scheduleAtLocal with
  | some hm =>
    let target := localDtTodayAt hm.1 hm.2 now
    if toTimestamp tz (addSecondsWall now 15) < toTimestamp tz target then
      .scheduled chan text blocks (toTimestamp tz target)
    else .postNow chan text blocks
  | none => .postNow chan text blocks

/-! ## Concrete test fixtures -/

/-- A test timezone in the style of America/Denver: UTC-7 (−25200 s) before
the model's spring-forward date (local 1970-03-10, epoch day 68), UTC-6
(−21600 s) from then on. -/
def tzDenverLike : Tz := fun t =>
  if 68 ≤ daysSinceEpoch t.date then -21600 else -25200

/-- A fixed-offset test timezone (UTC-7, no transitions). -/
def tzFixed : Tz := fun _ => -25200

/-- A source that always answers with a single final empty page. -/
def srcEmpty : Source := fun _ _ => [.page [] false none]

/-- A housekeeping event that otherwise looks exactly like a Typeform post. -/
def msgJoin : Message :=
  ⟨some "channel_join", some ⟨some "A1", some "typeform", none⟩, none, none⟩

/-- A bot message whose `app_id` matches `"A1"` but whose names do not
mention typeform. -/
def msgApp : Message :=
  ⟨none, some ⟨some "A1", some "other bot", none⟩, none, none⟩

/-- A bot message with a non-matching `app_id` but a name containing
`"TypeForm"` (mixed case). -/
def msgName : Message :=
  ⟨none, some ⟨some "B2", some "TypeForm notifications", none⟩, none, none⟩

/-- A plain human-authored message. -/
def msgHuman : Message :=
  ⟨none, none, none, some "U123"⟩

/-! # Theorems -/

/-! ## Calendar step lemmas -/

theorem daysInMonth_pos (y m : Nat) : 1 ≤ daysInMonth y m := by
  unfold daysInMonth
  split_ifs <;> omega

theorem daysBeforeMonth_succ (y m : Nat) (hm : 1 ≤ m) :
    daysBeforeMonth y (m + 1) = daysBeforeMonth y m + daysInMonth y m := by
  conv_lhs => rw [daysBeforeMonth]
  rw [if_neg (by omega)]

theorem daysBeforeMonth_year (y : Nat) :
    daysBeforeMonth y 13 = daysInYear y := by
  cases hc : isLeap y <;>
    simp [daysBeforeMonth, daysInMonth, daysInYear, hc]

theorem daysBeforeYearAux_succ (n : Nat) :
    daysBeforeYearAux (n + 1) = daysBeforeYearAux n + daysInYear (1970 + n) := rfl

theorem daysBeforeYear_succ (y : Nat) (hy : 1970 ≤ y) :
    daysBeforeYear (y + 1) = daysBeforeYear y + daysInYear y := by
  unfold daysBeforeYear
  rw [show y + 1 - 1970 = (y - 1970) + 1 from by omega, daysBeforeYearAux_succ,
    show 1970 + (y - 1970) = y from by omega]

/-- Advancing a valid date by one calendar day advances the epoch-day count
by exactly one, across month and year boundaries included. -/
theorem daysSinceEpoch_nextDate (d : Date) (hv : d.valid) :
    daysSinceEpoch (nextDate d) = daysSinceEpoch d + 1 := by
  obtain ⟨y, mo, da⟩ := d
  obtain ⟨hy, hm1, hm2, hd1, hd2⟩ := hv
  simp only at hy hm1 hm2 hd1 hd2
  unfold nextDate
  by_cases h1 : da < daysInMonth y mo
  · rw [if_pos (by simpa using h1)]
    unfold daysSinceEpoch
    simp only
    omega
  · rw [if_neg (by simpa using h1)]
    by_cases h2 : mo < 12
    · rw [if_pos (by simpa using h2)]
      unfold daysSinceEpoch
      simp only
      rw [daysBeforeMonth_succ y mo hm1]
      have := daysInMonth_pos y mo
      omega
    · rw [if_neg (by simpa using h2)]
      have hm12 : mo = 12 := by omega
      subst hm12
      unfold daysSinceEpoch
      simp only
      rw [daysBeforeYear_succ y hy]
      have h13 : daysBeforeMonth y 13 = daysInYear y := daysBeforeMonth_year y
      have hstep : daysBeforeMonth y 13 = daysBeforeMonth y 12 + daysInMonth y 12 :=
        daysBeforeMonth_succ y 12 (by omega)
      have hdim : daysInMonth y 12 = 31 := rfl
      have hb1 : daysBeforeMonth (y + 1) 1 = 0 := rfl
      rw [hb1]
      omega

/-- The end of a day window is, definitionally, the start of the next day's
window: both are the timestamp of the next date's local midnight. -/
theorem dayWindow_end_eq_next_start (tz : Tz) (d : Date) :
    (dayWindowLocal tz d).2.1 = (dayWindowLocal tz (nextDate d)).1 := rfl

/-- The instant span of a day window is 24 hours corrected by the change in
UTC offset between the two bounding local midnights. -/
theorem dayWindow_span (tz : Tz) (d : Date) (hv : d.valid) :
    (dayWindowLocal tz d).2.1 - (dayWindowLocal tz d).1 =
      86400 + (tz (midnight d) - tz (midnight (nextDate d))) := by
  unfold dayWindowLocal toTimestamp LocalDT.naiveEpoch midnight
  simp only
  rw [daysSinceEpoch_nextDate d hv]
  push_cast
  ring

/-- C2: for every valid local calendar date `d`, the day window for `d` ends
exactly where the day window for the next date starts (contiguous,
non-overlapping), and its span is `86400` seconds plus the difference of the
UTC offsets at the two bounding local midnights — i.e. exactly 24 hours
whenever no transition lies between them, and the true local elapsed
wall-clock span (23h/25h) across a daylight-saving transition, because the
end is local midnight of the next calendar date rather than
`start + 86400 s`. -/
theorem day_windows_contiguous_with_dst_span (tz : Tz) (d : Date) (hv : d.valid) :
    (dayWindowLocal tz d).2.1 = (dayWindowLocal tz (nextDate d)).1 ∧
    (dayWindowLocal tz d).2.1 - (dayWindowLocal tz d).1 =
      86400 + (tz (midnight d) - tz (midnight (nextDate d))) ∧
    (tz (midnight d) = tz (midnight (nextDate d)) →
      (dayWindowLocal tz d).2.1 - (dayWindowLocal tz d).1 = 86400) := by
  refine ⟨dayWindow_end_eq_next_start tz d, dayWindow_span tz d hv, fun h => ?_⟩
  rw [dayWindow_span tz d hv, h]
  ring

/-- Witness for C2, at the spring-forward date of the model timezone: the
windows are contiguous and the transition day spans 82800 s (23 h). -/
theorem day_windows_contiguous_with_dst_span_witness :
    Date.valid ⟨1970, 3, 9⟩ ∧
    (dayWindowLocal tzDenverLike ⟨1970, 3, 9⟩).2.1 =
      (dayWindowLocal tzDenverLike (nextDate ⟨1970, 3, 9⟩)).1 ∧
    (dayWindowLocal tzDenverLike ⟨1970, 3, 9⟩).2.1 -
        (dayWindowLocal tzDenverLike ⟨1970, 3, 9⟩).1 =
      86400 + (tzDenverLike (midnight ⟨1970, 3, 9⟩) -
        tzDenverLike (midnight (nextDate ⟨1970, 3, 9⟩))) ∧
    (dayWindowLocal tzDenverLike ⟨1970, 3, 9⟩).2.1 -
        (dayWindowLocal tzDenverLike ⟨1970, 3, 9⟩).1 = 82800 :=
  ⟨by decide,
    (day_windows_contiguous_with_dst_span tzDenverLike ⟨1970, 3, 9⟩ (by decide)).1,
    (day_windows_contiguous_with_dst_span tzDenverLike ⟨1970, 3, 9⟩ (by decide)).2.1,
    by decide⟩

/-! ## C1: classifier precedence -/

/-- C1: `_is_typeform_message` evaluates with this exact precedence: a
housekeeping subtype classifies false regardless of any other field; else a
configured matching application identifier classifies true even with no name
hypothesis; else a lowercased name field containing `"typeform"` classifies
true, with no hypothesis on the identifier (a configured-but-non-matching
identifier does not suppress it); and with no identifier match and no name
match the event classifies false — covering both the human-actor case and
the no-actor fallback. -/
theorem classifier_precedence (cfg : Option String) (m : Message) :
    (isHousekeeping m = true → isTypeformMessage cfg m = false) ∧
    (isHousekeeping m = false → appIdMatch cfg m = true →
      isTypeformMessage cfg m = true) ∧
    (isHousekeeping m = false → hasTypeformName m = true →
      isTypeformMessage cfg m = true) ∧
    (isHousekeeping m = false → appIdMatch cfg m = false →
      hasTypeformName m = false → isTypeformMessage cfg m = false) := by
  refine ⟨?_, ?_, ?_, ?_⟩ <;> intros <;> simp_all [isTypeformMessage]

/-- Witness for C1 on four concrete events: housekeeping beats everything; a
matching identifier counts despite a non-matching name; a typeform name
counts despite a configured non-matching identifier; a human message does
not count. -/
theorem classifier_precedence_witness :
    (isHousekeeping msgJoin = true ∧ isTypeformMessage (some "A1") msgJoin = false) ∧
    (isHousekeeping msgApp = false ∧ appIdMatch (some "A1") msgApp = true ∧
      isTypeformMessage (some "A1") msgApp = true) ∧
    (isHousekeeping msgName = false ∧ appIdMatch (some "A1") msgName = false ∧
      hasTypeformName msgName = true ∧ isTypeformMessage (some "A1") msgName = true) ∧
    (isHousekeeping msgHuman = false ∧ appIdMatch (some "A1") msgHuman = false ∧
      hasTypeformName msgHuman = false ∧ isTypeformMessage (some "A1") msgHuman = false) :=
  ⟨⟨by decide, (classifier_precedence (some "A1") msgJoin).1 (by decide)⟩,
   ⟨by decide, by decide, (classifier_precedence (some "A1") msgApp).2.1 (by decide) (by decide)⟩,
   ⟨by decide, by decide, by decide,
     (classifier_precedence (some "A1") msgName).2.2.1 (by decide) (by decide)⟩,
   ⟨by decide, by decide, by decide,
     (classifier_precedence (some "A1") msgHuman).2.2.2 (by decide) (by decide) (by decide)⟩⟩

/-! ## C3/C4: pagination, rate limits, half-open pass-through -/

theorem listMessages_failed_mem (o l : Int) (resps : List Resp) :
    ∀ (c : Option String) (code : Nat),
      (listMessages o l resps c).2 = .failed code → Resp.err code ∈ resps := by
  induction resps with
  | nil =>
    intro c code h
    simp [listMessages] at h
  | cons r rest ih =>
    intro c code h
    match r with
    | .rate ra =>
      simp only [listMessages] at h
      exact List.mem_cons_of_mem _ (ih c code h)
    | .err e =>
      simp only [listMessages, Outcome.failed.injEq] at h
      subst h
      exact List.mem_cons_self _ _
    | .page msgs hm nc =>
      cases hm
      · simp [listMessages] at h
      · simp only [listMessages, if_pos rfl] at h
        exact List.mem_cons_of_mem _ (ih nc code h)

theorem listMessages_rate_transparent (o l : Int) (resps : List Resp) :
    ∀ (c : Option String),
      (listMessages o l (resps.filter (fun r => !r.isRate)) c).1.msgs =
        (listMessages o l resps c).1.msgs ∧
      (listMessages o l (resps.filter (fun r => !r.isRate)) c).2 =
        (listMessages o l resps c).2 := by
  induction resps with
  | nil => exact fun c => ⟨rfl, rfl⟩
  | cons r rest ih =>
    intro c
    match r with
    | .rate ra =>
      have hf : (Resp.rate ra :: rest).filter (fun r => !r.isRate) =
          rest.filter (fun r => !r.isRate) := by
        simp [Resp.isRate]
      rw [hf]
      exact ⟨(ih c).1, (ih c).2⟩
    | .err e =>
      have hf : (Resp.err e :: rest).filter (fun r => !r.isRate) =
          Resp.err e :: rest.filter (fun r => !r.isRate) := by
        simp [Resp.isRate]
      rw [hf]
      exact ⟨rfl, rfl⟩
    | .page msgs hm nc =>
      have hf : (Resp.page msgs hm nc :: rest).filter (fun r => !r.isRate) =
          Resp.page msgs hm nc :: rest.filter (fun r => !r.isRate) := by
        simp [Resp.isRate]
      rw [hf]
      cases hm
      · exact ⟨rfl, rfl⟩
      · have h1 : (listMessages o l (Resp.page msgs true nc :: rest.filter (fun r => !r.isRate)) c).1.msgs =
            msgs ++ (listMessages o l (rest.filter (fun r => !r.isRate)) nc).1.msgs := rfl
        have h2 : (listMessages o l (Resp.page msgs true nc :: rest) c).1.msgs =
            msgs ++ (listMessages o l rest nc).1.msgs := rfl
        refine ⟨?_, ?_⟩
        · rw [h1, h2, (ih nc).1]
        · show (listMessages o l (rest.filter (fun r => !r.isRate)) nc).2 =
            (listMessages o l rest nc).2
          exact (ih nc).2

/-- C3: on a 429 rate-limit response with `Retry-After` `ra`, the fetcher
records a sleep of `ra + 1` seconds (the source interval plus a margin of 1)
and re-issues the request with the *same* cursor, the rest of the run being
unchanged; a non-429 error is returned to the caller unmodified and nothing
further is attempted; a run can only fail with an error that the source
actually produced (rate limits are never surfaced); and deleting the
rate-limit responses from a trace changes neither the messages yielded nor
the outcome — no page is skipped or duplicated by the retries. -/
theorem rate_limit_retry_and_error_propagation :
    (∀ (o l : Int) (ra : Nat) (rest : List Resp) (c : Option String),
      listMessages o l (.rate ra :: rest) c =
        (⟨(listMessages o l rest c).1.msgs,
          ⟨o, l, false, c⟩ :: (listMessages o l rest c).1.calls,
          (ra + 1) :: (listMessages o l rest c).1.sleeps⟩,
          (listMessages o l rest c).2)) ∧
    (∀ (o l : Int) (code : Nat) (rest : List Resp) (c : Option String),
      listMessages o l (.err code :: rest) c =
        (⟨[], [⟨o, l, false, c⟩], []⟩, .failed code)) ∧
    (∀ (o l : Int) (resps : List Resp) (c : Option String) (code : Nat),
      (listMessages o l resps c).2 = .failed code → Resp.err code ∈ resps) ∧
    (∀ (o l : Int) (resps : List Resp) (c : Option String),
      (listMessages o l (resps.filter (fun r => !r.isRate)) c).1.msgs =
        (listMessages o l resps c).1.msgs ∧
      (listMessages o l (resps.filter (fun r => !r.isRate)) c).2 =
        (listMessages o l resps c).2) :=
  ⟨fun _ _ _ _ _ => rfl, fun _ _ _ _ _ => rfl,
    fun o l resps c code h => listMessages_failed_mem o l resps c code h,
    fun o l resps c => listMessages_rate_transparent o l resps c⟩

/-- Witness for C3: a concrete failing run surfaces exactly the source's 500
error. -/
theorem rate_limit_retry_and_error_propagation_witness :
    (listMessages 0 100 [Resp.rate 3, Resp.err 500] none).2 = Outcome.failed 500 ∧
    Resp.err 500 ∈ [Resp.rate 3, Resp.err 500] :=
  ⟨by decide,
    rate_limit_retry_and_error_propagation.2.2.1 0 100 [Resp.rate 3, Resp.err 500]
      none 500 (by decide)⟩

theorem listMessages_calls_args (o l : Int) (resps : List Resp) :
    ∀ (c : Option String), ∀ req ∈ (listMessages o l resps c).1.calls,
      req.oldest = o ∧ req.latest = l ∧ req.inclusive = false := by
  induction resps with
  | nil =>
    intro c req hreq
    simp [listMessages] at hreq
    subst hreq
    exact ⟨rfl, rfl, rfl⟩
  | cons r rest ih =>
    intro c req hreq
    match r with
    | .rate ra =>
      have hreq' : req ∈ (⟨o, l, false, c⟩ : Req) ::
          (listMessages o l rest c).1.calls := hreq
      rcases List.mem_cons.mp hreq' with h | h
      · subst h
        exact ⟨rfl, rfl, rfl⟩
      · exact ih c req h
    | .err e =>
      have hreq' : req ∈ [(⟨o, l, false, c⟩ : Req)] := hreq
      rcases List.mem_cons.mp hreq' with h | h
      · subst h
        exact ⟨rfl, rfl, rfl⟩
      · exact absurd h (List.not_mem_nil req)
    | .page msgs hm nc =>
      cases hm
      · have hreq' : req ∈ [(⟨o, l, false, c⟩ : Req)] := hreq
        rcases List.mem_cons.mp hreq' with h | h
        · subst h
          exact ⟨rfl, rfl, rfl⟩
        · exact absurd h (List.not_mem_nil req)
      · have hreq' : req ∈ (⟨o, l, false, c⟩ : Req) ::
            (listMessages o l rest nc).1.calls := hreq
        rcases List.mem_cons.mp hreq' with h | h
        · subst h
          exact ⟨rfl, rfl, rfl⟩
        · exact ih nc req h

/-- C4: every request a fetch run issues carries exactly the window's
`oldest` and `latest` with `inclusive = false` — the half-open `[oldest,
latest)` convention passed straight through to the source — and a timestamp
lying in the union of two adjacent day windows belongs to exactly one of
them, so an event on the shared boundary is neither double-counted nor
dropped. -/
theorem half_open_passthrough_and_boundary_uniqueness :
    (∀ (o l : Int) (resps : List Resp) (c : Option String),
      ∀ req ∈ (listMessages o l resps c).1.calls,
        req.oldest = o ∧ req.latest = l ∧ req.inclusive = false) ∧
    (∀ (tz : Tz) (d : Date) (t : Int),
      (dayWindowLocal tz d).1 ≤ t →
      t < (dayWindowLocal tz (nextDate d)).2.1 →
      (memWindow (dayWindowLocal tz d).1 (dayWindowLocal tz d).2.1 t ↔
        ¬ memWindow (dayWindowLocal tz (nextDate d)).1
          (dayWindowLocal tz (nextDate d)).2.1 t)) := by
  refine ⟨fun o l resps c => listMessages_calls_args o l resps c, ?_⟩
  intro tz d t h1 h2
  have hc : (dayWindowLocal tz d).2.1 = (dayWindowLocal tz (nextDate d)).1 := rfl
  simp only [memWindow]
  constructor
  · rintro ⟨hta, htb⟩ ⟨htc, htd⟩
    rw [hc] at htb
    exact absurd htc (not_le.mpr htb)
  · intro hn
    refine ⟨h1, ?_⟩
    by_contra hlt
    push_neg at hlt
    exact hn ⟨hc ▸ hlt, h2⟩

/-- Witness for C4: the single request of a one-page run carries the window
bounds with `inclusive = false`, and the timestamp sitting exactly on the
midnight boundary between 1970-01-01 and 1970-01-02 (fixed UTC-7 offset)
belongs to the second window and not the first. -/
theorem half_open_passthrough_and_boundary_uniqueness_witness :
    ((⟨0, 100, false, none⟩ : Req) ∈
        (listMessages 0 100 [Resp.page [] false none] none).1.calls ∧
      (⟨0, 100, false, none⟩ : Req).oldest = 0 ∧
      (⟨0, 100, false, none⟩ : Req).latest = 100 ∧
      (⟨0, 100, false, none⟩ : Req).inclusive = false) ∧
    ((dayWindowLocal tzFixed ⟨1970, 1, 1⟩).1 ≤ 111600 ∧
      111600 < (dayWindowLocal tzFixed (nextDate ⟨1970, 1, 1⟩)).2.1 ∧
      (memWindow (dayWindowLocal tzFixed ⟨1970, 1, 1⟩).1
          (dayWindowLocal tzFixed ⟨1970, 1, 1⟩).2.1 111600 ↔
        ¬ memWindow (dayWindowLocal tzFixed (nextDate ⟨1970, 1, 1⟩)).1
          (dayWindowLocal tzFixed (nextDate ⟨1970, 1, 1⟩)).2.1 111600)) :=
  ⟨⟨by decide,
      (half_open_passthrough_and_boundary_uniqueness.1 0 100 [Resp.page [] false none]
        none ⟨0, 100, false, none⟩ (by decide)).1,
      (half_open_passthrough_and_boundary_uniqueness.1 0 100 [Resp.page [] false none]
        none ⟨0, 100, false, none⟩ (by decide)).2.1,
      (half_open_passthrough_and_boundary_uniqueness.1 0 100 [Resp.page [] false none]
        none ⟨0, 100, false, none⟩ (by decide)).2.2⟩,
    ⟨by decide, by decide,
      half_open_passthrough_and_boundary_uniqueness.2 tzFixed ⟨1970, 1, 1⟩ 111600
        (by decide) (by decide)⟩⟩

/-! ## C5: rollup totals and average -/

/-- Exact half-even rounding is within half a unit of the true quotient. -/
theorem roundHalfEven_close (num den : Nat) (hden : 0 < den) :
    |((roundHalfEven num den : ℚ)) - (num : ℚ) / den| ≤ 1 / 2 := by
  have hd' : (0 : ℚ) < (den : ℚ) := by exact_mod_cast hden
  have hdm := Nat.div_add_mod num den
  have hmo : num % den < den := Nat.mod_lt _ hden
  have hdm' : ((num : ℚ)) = ((den : ℚ)) * ((num / den : Nat) : ℚ) + ((num % den : Nat) : ℚ) := by
    exact_mod_cast hdm.symm
  have key : (num : ℚ) / den = (num / den : Nat) + (num % den : Nat) / den := by
    rw [hdm', add_div]
    congr 1
    rw [mul_comm, mul_div_assoc, div_self hd'.ne', mul_one]
  rw [key]
  show |(((if 2 * (num % den) < den then num / den
      else if den < 2 * (num % den) then num / den + 1
      else if (num / den) % 2 = 0 then num / den else num / den + 1) : ℕ) : ℚ) -
      ((num / den : Nat) + (num % den : Nat) / den)| ≤ 1 / 2
  have hfrac_nonneg : (0 : ℚ) ≤ ((num % den : Nat) : ℚ) / den := by positivity
  have hfrac_le_one : ((num % den : Nat) : ℚ) / den ≤ 1 := by
    rw [div_le_one hd']
    exact_mod_cast hmo.le
  split_ifs with h1 h2 h3
  · rw [show (((num / den : Nat) : ℚ)) - ((num / den : Nat) + (num % den : Nat) / den) =
      -((num % den : Nat) / den) by ring, abs_neg, abs_of_nonneg hfrac_nonneg,
      div_le_iff₀ hd']
    have : ((2 * (num % den) : ℕ) : ℚ) < den := by exact_mod_cast h1
    push_cast at this
    linarith
  · rw [show (((num / den + 1 : Nat) : ℚ)) - ((num / den : Nat) + (num % den : Nat) / den) =
      1 - (num % den : Nat) / den by push_cast; ring,
      abs_of_nonneg (by linarith)]
    have : ((den : ℕ) : ℚ) < 2 * (num % den : Nat) := by exact_mod_cast h2
    have hge : 1 / 2 ≤ ((num % den : Nat) : ℚ) / den := by
      rw [le_div_iff₀ hd']
      linarith
    linarith
  · have htie : 2 * (num % den) = den := by omega
    have hfr : ((num % den : Nat) : ℚ) / den = 1 / 2 := by
      rw [div_eq_div_iff hd'.ne' (by norm_num : (2 : ℚ) ≠ 0)]
      have : ((2 * (num % den) : ℕ) : ℚ) = den := by exact_mod_cast congrArg Nat.cast htie
      push_cast at this
      linarith
    rw [hfr, show (((num / den : Nat) : ℚ)) - ((num / den : Nat) + 1 / 2) = -(1 / 2) by ring,
      abs_neg, abs_of_nonneg (by norm_num)]
  · have htie : 2 * (num % den) = den := by omega
    have hfr : ((num % den : Nat) : ℚ) / den = 1 / 2 := by
      rw [div_eq_div_iff hd'.ne' (by norm_num : (2 : ℚ) ≠ 0)]
      have : ((2 * (num % den) : ℕ) : ℚ) = den := by exact_mod_cast congrArg Nat.cast htie
      push_cast at this
      linarith
    rw [hfr, show (((num / den + 1 : Nat) : ℚ)) - ((num / den : Nat) + 1 / 2) = 1 / 2 by
      push_cast; ring, abs_of_nonneg (by norm_num)]

/-- `mapM` over `Except` preserves length on success. -/
theorem exceptMapM_length {α β ε : Type} (f : α → Except ε β) :
    ∀ (l : List α) (out : List β), l.mapM f = .ok out → out.length = l.length := by
  intro l
  induction l with
  | nil =>
    intro out h
    cases h
    rfl
  | cons a t ih =>
    intro out h
    rw [List.mapM_cons] at h
    cases hfa : f a with
    | error e =>
      rw [hfa] at h
      exact absurd h (by simp [Bind.bind, Except.bind])
    | ok b =>
      rw [hfa] at h
      cases hmt : t.mapM f with
      | error e =>
        rw [hmt] at h
        exact absurd h (by simp [Bind.bind, Except.bind])
      | ok bs =>
        rw [hmt] at h
        simp only [Bind.bind, Except.bind, Except.ok.injEq, pure, Except.pure] at h
        subst h
        simp [ih bs hmt]

/-- C5 counterexample: on the empty row sequence the average computation
divides by `len(rows) = 0` and raises, rather than yielding an undefined/zero
average with no error as the claim states (the running total, summed before
the division, is still 0). -/
theorem rollup_empty_divides_by_zero :
    rollupAvgCents [] = Except.error DivErr.divByZero ∧ rollupTotal [] = 0 :=
  ⟨rfl, rfl⟩

/-- C5 (amended): the rollup total is the sum of the per-day totals for every
input sequence; for every *nonempty* sequence the average is
`round(total / len(rows), 2)` — within half a cent of the exact quotient —
and no error is raised; the empty sequence instead raises a division error
(its total is still 0), but the weekly pipeline always hands the rollup
exactly 7 day rows, so that case is unreachable in the program. -/
theorem rollup_total_and_average :
    (∀ week : List DaySummary,
      rollupTotal (weekRows week) = (week.map DaySummary.total).sum) ∧
    (∀ rows : List (String × Nat), rows ≠ [] →
      rollupAvgCents rows = .ok (round2Cents (rollupTotal rows) rows.length)) ∧
    (∀ (rows : List (String × Nat)) (c : Nat), rollupAvgCents rows = .ok c →
      |((c : ℚ)) / 100 - (rollupTotal rows : ℚ) / (rows.length : ℚ)| ≤ 1 / 200) ∧
    rollupTotal [] = 0 ∧
    (∀ (cfg : Option String) (tz : Tz) (src : Source) (endDay : Date)
      (week : List DaySummary),
      summarizeTypeformWeek cfg tz src endDay = .ok week → (weekRows week).length = 7) := by
  refine ⟨?_, ?_, ?_, rfl, ?_⟩
  · intro week
    unfold rollupTotal weekRows
    rw [List.map_map]
    rfl
  · intro rows hrows
    unfold rollupAvgCents
    rw [if_neg (by simpa using hrows)]
  · intro rows c hc
    unfold rollupAvgCents at hc
    by_cases hlen : rows.length = 0
    · rw [if_pos hlen] at hc
      exact absurd hc (by simp)
    · rw [if_neg hlen] at hc
      have hcv : c = round2Cents (rollupTotal rows) rows.length := by
        cases hc
        rfl
      subst hcv
      have hpos : 0 < rows.length := Nat.pos_of_ne_zero hlen
      have hclose := roundHalfEven_close (100 * rollupTotal rows) rows.length hpos
      have hL : (0 : ℚ) < (rows.length : ℚ) := by exact_mod_cast hpos
      unfold round2Cents
      have key : ((roundHalfEven (100 * rollupTotal rows) rows.length : ℕ) : ℚ) / 100 -
          (rollupTotal rows : ℚ) / (rows.length : ℚ) =
          (((roundHalfEven (100 * rollupTotal rows) rows.length : ℕ) : ℚ) -
            ((100 * rollupTotal rows : ℕ) : ℚ) / (rows.length : ℚ)) / 100 := by
        rw [sub_div]
        congr 1
        rw [div_div]
        push_cast
        rw [mul_comm (100 : ℚ) ((rollupTotal rows : ℚ)),
          mul_div_mul_right _ _ (by norm_num : (100 : ℚ) ≠ 0)]
      rw [key, abs_div, show |(100 : ℚ)| = 100 by norm_num]
      linarith
  · intro cfg tz src endDay week hweek
    unfold summarizeTypeformWeek at hweek
    have := exceptMapM_length _ _ _ hweek
    simp only [List.length_range] at this
    simp [weekRows, this]

/-- Witness for C5 (amended), on the specification's own example week: totals
`[3,0,5,2,8,1,4]` roll up to a total of 23 and a daily average of 3.29. -/
theorem rollup_total_and_average_witness :
    (([("a", 3), ("b", 0), ("c", 5), ("d", 2), ("e", 8), ("f", 1), ("g", 4)] :
        List (String × Nat)) ≠ []) ∧
    rollupAvgCents [("a", 3), ("b", 0), ("c", 5), ("d", 2), ("e", 8), ("f", 1), ("g", 4)] =
      .ok 329 ∧
    rollupTotal [("a", 3), ("b", 0), ("c", 5), ("d", 2), ("e", 8), ("f", 1), ("g", 4)] = 23 :=
  ⟨by decide,
    (rollup_total_and_average.2.1
      [("a", 3), ("b", 0), ("c", 5), ("d", 2), ("e", 8), ("f", 1), ("g", 4)]
      (by decide)).trans (congrArg Except.ok (by decide)),
    by decide⟩

/-! ## C6: bar-chart scaling -/

/-- For natural `a` and positive `b`, `⌈a / b⌉` over ℚ is the natural ceiling
division `(a + b - 1) / b`. -/
theorem ceil_natCast_div (a b : ℕ) (hb : 0 < b) :
    ⌈((a : ℚ) / b)⌉ = (((a + b - 1) / b : ℕ) : ℤ) := by
  have hb' : (0 : ℚ) < (b : ℚ) := by exact_mod_cast hb
  rcases Nat.eq_zero_or_pos a with ha | ha
  · subst ha
    have hz : (0 + b - 1) / b = 0 := Nat.div_eq_of_lt (by omega)
    rw [hz]
    simp
  have hdm := Nat.div_add_mod (a + b - 1) b
  have hmo : (a + b - 1) % b < b := Nat.mod_lt _ hb
  set n := (a + b - 1) / b with hn
  obtain ⟨m, hm2⟩ : ∃ m, b * n = m := ⟨_, rfl⟩
  rw [hm2] at hdm
  have h1 : a ≤ m := by omega
  have h2 : m < a + b := by omega
  have hmq : ((m : ℚ)) = (n : ℚ) * b := by
    rw [← hm2]
    push_cast
    ring
  refine le_antisymm (Int.ceil_le.mpr ?_) ?_
  · rw [div_le_iff₀ hb']
    push_cast
    rw [← hmq]
    exact_mod_cast h1
  · rw [← Int.sub_one_lt_iff, Int.lt_ceil]
    rw [lt_div_iff₀ hb']
    push_cast
    have hq2 : (m : ℚ) < (a : ℚ) + b := by exact_mod_cast h2
    nlinarith [hmq, hq2]

/-- The bar-length of the embedding agrees with the specification's formula
`max(1, ceil((v / maxv) * 20))` for a positive divisor. -/
theorem barN_eq_ceil (maxv v : ℕ) (h : 0 < maxv) :
    barN maxv v =
      if v = 0 then 0 else max 1 (Int.toNat ⌈((v : ℚ) / (maxv : ℚ)) * 20⌉) := by
  unfold barN
  by_cases hv : v = 0
  · rw [if_pos hv, if_pos hv]
  · rw [if_neg hv, if_neg hv]
    congr 1
    have h20 : ((v : ℚ) / maxv) * 20 = ((20 * v : ℕ) : ℚ) / ((maxv : ℕ) : ℚ) := by
      push_cast
      ring
    rw [h20, ceil_natCast_div (20 * v) maxv h, Int.toNat_natCast]

theorem le_foldl_max (l : List ℕ) : ∀ a : ℕ, a ≤ l.foldl max a := by
  induction l with
  | nil => exact fun a => le_refl a
  | cons h t ih => exact fun a => le_trans (le_max_left a h) (ih (max a h))

theorem mem_le_foldl_max (l : List ℕ) : ∀ (a : ℕ), ∀ x ∈ l, x ≤ l.foldl max a := by
  induction l with
  | nil => simp
  | cons h t ih =>
    intro a x hx
    rcases List.mem_cons.mp hx with rfl | hx
    · exact le_trans (le_max_right a x) (le_foldl_max t (max a x))
    · exact ih (max a h) x hx

theorem foldl_max_mem (l : List ℕ) : ∀ a : ℕ, l.foldl max a = a ∨ l.foldl max a ∈ l := by
  induction l with
  | nil => exact fun a => Or.inl rfl
  | cons h t ih =>
    intro a
    have hred : (h :: t).foldl max a = t.foldl max (max a h) := rfl
    rcases ih (max a h) with heq | hmem
    · rcases max_choice a h with hc | hc
      · left
        rw [hred, heq, hc]
      · right
        rw [hred, heq, hc]
        exact List.mem_cons_self h t
    · right
      rw [hred]
      exact List.mem_cons_of_mem h hmem

/-- C6: the chart's divisor is the maximum count, replaced by 1 when the rows
are empty or all-zero (so no division by zero can occur); every rendered row
consists of the right-aligned label, the separator, `0` fill characters for a
zero count and `max(1, ceil(count / max * 20))` fill characters otherwise,
then the count; every nonzero count draws at least one unit; and on
`[("A", 0), ("B", 10)]` row A gets no fill and row B exactly 20. -/
theorem bar_chart_scaling :
    (∀ rows : List (String × Nat), 0 < maxvOf rows) ∧
    (∀ rows : List (String × Nat), (∀ p ∈ rows, p.2 = 0) → maxvOf rows = 1) ∧
    (∀ rows : List (String × Nat), (∃ p ∈ rows, p.2 ≠ 0) →
      maxvOf rows ∈ rows.map Prod.snd ∧ ∀ p ∈ rows, p.2 ≤ maxvOf rows) ∧
    (∀ rows : List (String × Nat),
      barChartLines rows = rows.map (fun p =>
        padLeft p.1 12 ++ " | " ++
          String.mk (List.replicate
            (if p.2 = 0 then 0
              else max 1 (Int.toNat ⌈((p.2 : ℚ) / (maxvOf rows : ℚ)) * 20⌉)) barFill)
          ++ " " ++ toString p.2)) ∧
    (∀ maxv v : Nat, v ≠ 0 → 1 ≤ barN maxv v) ∧
    barChart [("A", 0), ("B", 10)] =
      "```\n           A |  0\n           B | ████████████████████ 10\n```" := by
  have hpos : ∀ rows : List (String × Nat), 0 < maxvOf rows := by
    intro rows
    unfold maxvOf
    split_ifs with h
    · exact Nat.one_pos
    · exact Nat.pos_of_ne_zero h
  refine ⟨hpos, ?_, ?_, ?_, ?_, by decide⟩
  · intro rows hz
    have h0 : (rows.map Prod.snd).foldl max 0 = 0 := by
      rcases foldl_max_mem (rows.map Prod.snd) 0 with heq | hmem
      · exact heq
      · rcases List.mem_map.mp hmem with ⟨p, hp, hpv⟩
        rw [← hpv]
        exact hz p hp
    unfold maxvOf
    rw [if_pos h0]
  · intro rows ⟨p, hp, hpv⟩
    have hne : (rows.map Prod.snd).foldl max 0 ≠ 0 := by
      intro h0
      exact hpv (Nat.le_zero.mp (h0 ▸ mem_le_foldl_max (rows.map Prod.snd) 0 p.2
        (List.mem_map.mpr ⟨p, hp, rfl⟩)))
    have hval : maxvOf rows = (rows.map Prod.snd).foldl max 0 := by
      unfold maxvOf
      rw [if_neg hne]
    constructor
    · rw [hval]
      rcases foldl_max_mem (rows.map Prod.snd) 0 with heq | hmem
      · exact absurd heq hne
      · exact hmem
    · intro q hq
      rw [hval]
      exact mem_le_foldl_max (rows.map Prod.snd) 0 q.2 (List.mem_map.mpr ⟨q, hq, rfl⟩)
  · intro rows
    unfold barChartLines
    refine List.map_congr_left (fun p _ => ?_)
    rw [barN_eq_ceil (maxvOf rows) p.2 (hpos rows)]
  · intro maxv v hv
    unfold barN
    rw [if_neg hv]
    exact le_max_left 1 _

/-- Witness for C6: on `[("A", 0), ("B", 10)]` the divisor is the maximum
count 10, and a nonzero count always fills at least one cell. -/
theorem bar_chart_scaling_witness :
    ((∃ p ∈ ([("A", 0), ("B", 10)] : List (String × Nat)), p.2 ≠ 0) ∧
      maxvOf [("A", 0), ("B", 10)] ∈
        ([("A", 0), ("B", 10)] : List (String × Nat)).map Prod.snd) ∧
    ((3 : Nat) ≠ 0 ∧ 1 ≤ barN 10 3) :=
  ⟨⟨⟨("B", 10), by decide, by decide⟩,
      (bar_chart_scaling.2.2.1 [("A", 0), ("B", 10)]
        ⟨("B", 10), by decide, by decide⟩).1⟩,
    ⟨by decide, bar_chart_scaling.2.2.2.2.1 10 3 (by decide)⟩⟩

/-! ## C7: month-to-date window -/

/-- C7: the month-to-date fetch runs over `[month start, asOf)`: the month
window starts at local midnight of the 1st of `asOf`'s month, every request
of the fetch carries that start as `oldest` and `asOf`'s own timestamp as
`latest` with `inclusive = false` (the month-end timestamp is not used as the
bound), and the computed next-month date always denotes a real month — in
December the year is incremented and the month wraps to January rather than
producing month 13 — and is exactly the successor month. -/
theorem month_to_date_window (tz : Tz) (src : Source) (now : LocalDT) :
    ((monthWindowLocalFor tz now).1 =
      toTimestamp tz (midnight ⟨now.date.year, now.date.month, 1⟩)) ∧
    (∀ req ∈ (monthToNowFetch tz src now).1.calls,
      req.oldest = toTimestamp tz (midnight ⟨now.date.year, now.date.month, 1⟩) ∧
      req.latest = toTimestamp tz now ∧ req.inclusive = false) ∧
    (∀ y m : Nat, 1 ≤ m → m ≤ 12 →
      1 ≤ (nextMonthFirst y m).month ∧ (nextMonthFirst y m).month ≤ 12 ∧
      (nextMonthFirst y m).day = 1 ∧
      (nextMonthFirst y m).year * 12 + (nextMonthFirst y m).month = y * 12 + m + 1) := by
  refine ⟨rfl, ?_, ?_⟩
  · intro req hreq
    exact listMessages_calls_args _ _ _ none req hreq
  · intro y m h1 h2
    by_cases hm : m = 12
    · subst hm
      refine ⟨le_refl 1, (by norm_num : (1 : ℕ) ≤ 12), rfl, ?_⟩
      show (y + 1) * 12 + 1 = y * 12 + 12 + 1
      ring
    · rw [show nextMonthFirst y m = ⟨y, m + 1, 1⟩ from if_neg hm]
      refine ⟨?_, ?_, rfl, ?_⟩
      · show 1 ≤ m + 1
        omega
      · show m + 1 ≤ 12
        omega
      · show y * 12 + (m + 1) = y * 12 + m + 1
        omega

/-- Witness for C7, at 14:00 on 1970-12-31 (December, so the rollover branch
is the live one): the single request of a month-to-date run carries the
December-1st midnight timestamp and `now`'s own timestamp. -/
theorem month_to_date_window_witness :
    ((⟨0, 100, false, none⟩ : Req) = (⟨0, 100, false, none⟩ : Req) ∧
      (∀ req ∈ (monthToNowFetch tzFixed srcEmpty ⟨⟨1970, 12, 31⟩, 14, 0, 0⟩).1.calls,
        req.oldest = toTimestamp tzFixed (midnight ⟨1970, 12, 1⟩) ∧
        req.latest = toTimestamp tzFixed ⟨⟨1970, 12, 31⟩, 14, 0, 0⟩ ∧
        req.inclusive = false)) ∧
    ((1 : Nat) ≤ 12 ∧ (12 : Nat) ≤ 12 ∧ nextMonthFirst 1970 12 = ⟨1971, 1, 1⟩ ∧
      (nextMonthFirst 1970 12).year * 12 + (nextMonthFirst 1970 12).month =
        1970 * 12 + 12 + 1) :=
  ⟨⟨rfl, (month_to_date_window tzFixed srcEmpty ⟨⟨1970, 12, 31⟩, 14, 0, 0⟩).2.1⟩,
    ⟨by decide, by decide, by decide,
      (month_to_date_window tzFixed srcEmpty
        ⟨⟨1970, 12, 31⟩, 14, 0, 0⟩).2.2 1970 12 (by decide) (by decide)
        |>.2.2.2⟩⟩

/-! ## C8: scheduled vs immediate delivery -/

/-- Adding `n` wall-clock seconds within sane bounds adds `n` to the naive
epoch reading, also across the midnight carry. -/
theorem addSecondsWall_naive (t : LocalDT) (n : Nat) (hv : t.date.valid)
    (hbound : 3600 * t.hour + 60 * t.minute + t.second + n < 2 * 86400) :
    (addSecondsWall t n).naiveEpoch = t.naiveEpoch + n := by
  unfold addSecondsWall LocalDT.naiveEpoch
  by_cases hc : 3600 * t.hour + 60 * t.minute + t.second + n < 86400
  · rw [if_pos hc]
    simp only
    push_cast
    omega
  · rw [if_neg hc]
    simp only
    rw [daysSinceEpoch_nextDate t.date hv]
    push_cast
    omega

/-- C8: with no configured delivery time `_post_or_schedule` posts
immediately; with a configured `HH:MM` it schedules exactly when today's
local instant at that time is strictly later than `now + 15` seconds — and
then for that instant — and otherwise posts immediately; and the comparison
instant really is 15 seconds after `now` (whenever the UTC offset does not
change within the margin). -/
theorem schedule_or_post_now (tz : Tz) (chan text : String) (blocks : List Block)
    (now : LocalDT) :
    (postOrSchedule tz chan text blocks none now = .postNow chan text blocks) ∧
    (∀ h m : Nat,
      (toTimestamp tz (addSecondsWall now 15) < toTimestamp tz (localDtTodayAt h m now) →
        postOrSchedule tz chan text blocks (some (h, m)) now =
          .scheduled chan text blocks (toTimestamp tz (localDtTodayAt h m now))) ∧
      (toTimestamp tz (localDtTodayAt h m now) ≤ toTimestamp tz (addSecondsWall now 15) →
        postOrSchedule tz chan text blocks (some (h, m)) now =
          .postNow chan text blocks)) ∧
    (now.wf → tz (addSecondsWall now 15) = tz now →
      toTimestamp tz (addSecondsWall now 15) = toTimestamp tz now + 15) := by
  refine ⟨rfl, ?_, ?_⟩
  · intro h m
    constructor
    · intro hlt
      show (if toTimestamp tz (addSecondsWall now 15) <
            toTimestamp tz (localDtTodayAt h m now) then
          PostAction.scheduled chan text blocks
            (toTimestamp tz (localDtTodayAt h m now))
        else PostAction.postNow chan text blocks) = _
      rw [if_pos hlt]
    · intro hle
      show (if toTimestamp tz (addSecondsWall now 15) <
            toTimestamp tz (localDtTodayAt h m now) then
          PostAction.scheduled chan text blocks
            (toTimestamp tz (localDtTodayAt h m now))
        else PostAction.postNow chan text blocks) = _
      rw [if_neg (not_lt.mpr hle)]
  · intro hwf hoff
    unfold toTimestamp
    rw [addSecondsWall_naive now 15 hwf.1 (by
      obtain ⟨_, hh, hm, hs⟩ := hwf
      omega), hoff]
    push_cast
    ring

/-- Witness for C8 at 08:00 on 1970-01-02 with a 09:00 schedule: the target
is beyond the margin, so the message is scheduled for the 09:00 instant; and
the margin instant is exactly `now + 15`. -/
theorem schedule_or_post_now_witness :
    (toTimestamp tzFixed (addSecondsWall ⟨⟨1970, 1, 2⟩, 8, 0, 0⟩ 15) <
        toTimestamp tzFixed (localDtTodayAt 9 0 ⟨⟨1970, 1, 2⟩, 8, 0, 0⟩) ∧
      postOrSchedule tzFixed "C1" "t" [] (some (9, 0)) ⟨⟨1970, 1, 2⟩, 8, 0, 0⟩ =
        .scheduled "C1" "t" []
          (toTimestamp tzFixed (localDtTodayAt 9 0 ⟨⟨1970, 1, 2⟩, 8, 0, 0⟩))) ∧
    (LocalDT.wf ⟨⟨1970, 1, 2⟩, 8, 0, 0⟩ ∧
      toTimestamp tzFixed (addSecondsWall ⟨⟨1970, 1, 2⟩, 8, 0, 0⟩ 15) =
        toTimestamp tzFixed ⟨⟨1970, 1, 2⟩, 8, 0, 0⟩ + 15) :=
  ⟨⟨by decide,
      ((schedule_or_post_now tzFixed "C1" "t" [] ⟨⟨1970, 1, 2⟩, 8, 0, 0⟩).2.1 9 0).1
        (by decide)⟩,
    ⟨by decide,
      (schedule_or_post_now tzFixed "C1" "t" [] ⟨⟨1970, 1, 2⟩, 8, 0, 0⟩).2.2
        (by decide) rfl⟩⟩

/-! ## C9: determinism / idempotence -/

/-- C9: the summarisation pipeline is a pure function of its configuration,
timezone, window inputs and source responses: two runs against equal sources
produce identical day, week and month-to-date summaries and an identical
rendered weekly report. -/
theorem pipeline_deterministic_idempotent (cfg : Option String) (tz : Tz)
    (src src2 : Source) (day endDay : Date) (now : LocalDT)
    (hsrc : src = src2) :
    summarizeTypeformForDay cfg tz src day = summarizeTypeformForDay cfg tz src2 day ∧
    summarizeTypeformWeek cfg tz src endDay = summarizeTypeformWeek cfg tz src2 endDay ∧
    summarizeTypeformMonthToNow cfg tz src now =
      summarizeTypeformMonthToNow cfg tz src2 now ∧
    postWeeklyTypeform cfg tz src now = postWeeklyTypeform cfg tz src2 now := by
  subst hsrc
  exact ⟨rfl, rfl, rfl, rfl⟩

/-- Witness for C9: a concrete double run of the weekly pipeline. -/
theorem pipeline_deterministic_idempotent_witness :
    srcEmpty = srcEmpty ∧
    postWeeklyTypeform none tzFixed srcEmpty ⟨⟨1970, 1, 8⟩, 14, 0, 0⟩ =
      postWeeklyTypeform none tzFixed srcEmpty ⟨⟨1970, 1, 8⟩, 14, 0, 0⟩ :=
  ⟨rfl,
    (pipeline_deterministic_idempotent none tzFixed srcEmpty srcEmpty ⟨1970, 1, 1⟩
      ⟨1970, 1, 7⟩ ⟨⟨1970, 1, 8⟩, 14, 0, 0⟩ rfl).2.2.2⟩

/-! ## C10: empty chart omitted -/

/-- C10: on empty rows the chart renderer returns the empty string (not an
empty fenced block), and the weekly blocks consist of the header and totals
sections with the chart section appended exactly when the chart text is
non-empty. -/
theorem empty_chart_omitted :
    barChart [] = "" ∧
    (∀ (week : List DaySummary) (avgCents : Nat),
      weeklyBlocks week avgCents =
        [Block.headerB "Weekly Recap as of 2pm Friday",
          Block.sectionB ("*Total Typeform messages:* "
            ++ toString (rollupTotal (weekRows week))
            ++ "\n*Daily average:* " ++ centsText avgCents)] ++
          (if barChart (weekRows week) = "" then []
            else [Block.sectionB (barChart (weekRows week))])) := by
  refine ⟨rfl, fun week avgCents => ?_⟩
  unfold weeklyBlocks
  by_cases hc : barChart (weekRows week) = ""
  · rw [if_pos hc, if_pos hc, List.append_nil]
  · rw [if_neg hc, if_neg hc]

end RecapBot
